import Mathlib

/-!
Verification development for the Flathead streaming pipeline.

Shallow embedding of the streaming service sources:
  src/streaming/video_streamer.py  (capture queues, stereo synchronizer)
  src/streaming/audio_streamer.py  (audio queues, SoundLocalizer)
  src/streaming/main.py            (wire packing, connect, send, stream loops)
  src/streaming/server/server.py   (wire unpacking, message processing)

Timestamps and sample values are modelled as exact rationals; the IEEE-754
double of the wire header is modelled by its 8-byte big-endian bit pattern
(struct.pack and struct.unpack move those bytes unchanged).
-/

namespace Flathead

/-! ## Rational helpers

Explicit definitions of min, max and absolute value on ℚ (the numpy and
Python builtins used by the source), kept kernel-reducible so concrete
runs of the model can be checked by decide. -/

/-- min of two rationals. -/
def qmin (a b : ℚ) : ℚ := if a ≤ b then a else b

/-- max of two rationals. -/
def qmax (a b : ℚ) : ℚ := if a ≤ b then b else a

/-- absolute value of a rational. -/
def qabs (x : ℚ) : ℚ := if x < 0 then -x else x

/-! ## Frames

VideoFrame carries an identity tag and its capture timestamp; payload and
size metadata are irrelevant to queueing and synchronization.  Mirrors the
VideoFrame dataclass of video_streamer.py. -/

structure VideoFrame where
  id : Nat
  timestamp : ℚ
deriving DecidableEq, Repr

/-- Stereo pair dict built in StereoVideoStreamer._stereo_sync_loop:
left frame, right frame, and the mean of the two timestamps. -/
structure StereoPair where
  left : VideoFrame
  right : VideoFrame
  timestamp : ℚ
deriving DecidableEq, Repr

/-! ## Bounded queues

asyncio.Queue(maxsize=cap): put_nowait raises QueueFull iff 0 < cap and
cap ≤ size.  The queue is modelled as a list, head = oldest element. -/

/-- Video capture enqueue, from StereoVideoStreamer._capture_loop:
put_nowait; on QueueFull, get_nowait (drop the oldest) then put_nowait;
a QueueEmpty from that get_nowait is swallowed and the frame is dropped. -/
def videoEnqueue {α : Type} (cap : Nat) (q : List α) (f : α) : List α :=
  if 0 < cap ∧ cap ≤ q.length then
    match q with
    | [] => []
    | _ :: rest => rest ++ [f]
  else q ++ [f]

/-- Audio capture enqueue, from AudioStreamer._create_callback:
put_nowait; on QueueFull the new frame is simply dropped. -/
def audioEnqueue {α : Type} (cap : Nat) (q : List α) (f : α) : List α :=
  if 0 < cap ∧ cap ≤ q.length then q else q ++ [f]

/-- Feeding a whole list of captured frames through videoEnqueue in order. -/
def videoEnqueueAll {α : Type} (cap : Nat) (q : List α) (fs : List α) : List α :=
  fs.foldl (videoEnqueue cap) q

/-- Feeding a whole list of captured frames through audioEnqueue in order. -/
def audioEnqueueAll {α : Type} (cap : Nat) (q : List α) (fs : List α) : List α :=
  fs.foldl (audioEnqueue cap) q

/-! ## Stereo synchronizer

StereoVideoStreamer._stereo_sync_loop: each iteration polls the left and
the right queue with a 100 ms timeout (modelled: the head frame when the
queue is nonempty, a timeout otherwise), and when both sides yielded a
frame whose timestamps differ by strictly less than 0.05 s it builds the
stereo pair and put_nowait-s it on the stereo queue (maxsize 10, a full
stereo queue silently drops the new pair). -/

/-- The 50 ms matching window (0.05 s). -/
def syncWindow : ℚ := 1 / 20

/-- Capacity of the stereo output queue (asyncio.Queue(maxsize=10)). -/
def stereoCap : Nat := 10

/-- await wait_for(queue.get(), timeout=0.1): the oldest frame if one is
available, a timeout (none) otherwise. -/
def popFrame : List VideoFrame → Option VideoFrame × List VideoFrame
  | [] => (none, [])
  | f :: rest => (some f, rest)

/-- The stereo pair dict as constructed in the sync loop. -/
def mkStereoPair (l r : VideoFrame) : StereoPair :=
  ⟨l, r, (l.timestamp + r.timestamp) / 2⟩

/-- State of the synchronizer: the two input queues and the stereo output
queue. -/
structure SyncState where
  leftQ : List VideoFrame
  rightQ : List VideoFrame
  stereoQ : List StereoPair
deriving DecidableEq, Repr

/-- One iteration of _stereo_sync_loop.  Returns the new state and the
stereo pair built this iteration, if any. -/
def syncStep (s : SyncState) : SyncState × Option StereoPair :=
  let lp := popFrame s.leftQ
  let rp := popFrame s.rightQ
  match lp.1, rp.1 with
  | some l, some r =>
    if qabs (l.timestamp - r.timestamp) < syncWindow then
      let p := mkStereoPair l r
      let sq := if s.stereoQ.length < stereoCap then s.stereoQ ++ [p] else s.stereoQ
      (⟨lp.2, rp.2, sq⟩, some p)
    else
      (⟨lp.2, rp.2, s.stereoQ⟩, none)
  | _, _ => (⟨lp.2, rp.2, s.stereoQ⟩, none)

/-- All frames currently sitting in the two input queues. -/
def framesOf (s : SyncState) : List VideoFrame := s.leftQ ++ s.rightQ

/-- Frames delivered by the capture loops over a run: per iteration a list
of new left frames and a list of new right frames. -/
def arrFrames : List (List VideoFrame × List VideoFrame) → List VideoFrame
  | [] => []
  | a :: rest => a.1 ++ a.2 ++ arrFrames rest

/-- A run of the synchronizer: at each iteration the newly captured frames
are enqueued by the capture loops (videoEnqueue policy, capacity 10), then
one sync iteration runs.  Returns every stereo pair built during the run. -/
def syncRun : SyncState → List (List VideoFrame × List VideoFrame) → List StereoPair
  | _, [] => []
  | s, a :: rest =>
    let s1 : SyncState :=
      ⟨videoEnqueueAll 10 s.leftQ a.1, videoEnqueueAll 10 s.rightQ a.2, s.stereoQ⟩
    let r := syncStep s1
    (match r.2 with
     | some p => [p]
     | none => []) ++ syncRun r.1 rest

/-! ## Wire format

StreamingService._pack_message writes the big-endian 14-byte header
(type: 1 byte, sourceId: 1 byte, timestamp: 8 bytes, length: 4 bytes)
followed by the payload; StreamingServer._unpack_header reads it back.
Bytes are Nat values below 256; the float64 timestamp is represented by
its 64-bit pattern. -/

/-- Big-endian encoding of n into exactly k bytes (the low k bytes of n). -/
def natToBytesBE : Nat → Nat → List Nat
  | 0, _ => []
  | k + 1, n => natToBytesBE k (n / 256) ++ [n % 256]

/-- Big-endian decoding of a byte list. -/
def bytesToNatBE (bs : List Nat) : Nat :=
  bs.foldl (fun acc b => acc * 256 + b) 0

/-- The 14-byte header written by struct.pack with format >BBdI.
struct.pack rejects out-of-range field values, so the encoding is only
meaningful under the uint8/uint64-pattern/uint32 bounds. -/
def packHeader (msgType srcId tsBits len : Nat) : List Nat :=
  natToBytesBE 1 msgType ++ natToBytesBE 1 srcId ++ natToBytesBE 8 tsBits ++ natToBytesBE 4 len

/-- StreamingService._pack_message: header (with length = payload size)
followed by the payload bytes. -/
def packMessage (msgType srcId tsBits : Nat) (data : List Nat) : List Nat :=
  packHeader msgType srcId tsBits data.length ++ data

/-- The four fields struct.unpack reads from the first 14 bytes
(format >BBdI). -/
def headerFields (data : List Nat) : Nat × Nat × Nat × Nat :=
  (bytesToNatBE (data.take 1),
   bytesToNatBE ((data.drop 1).take 1),
   bytesToNatBE ((data.drop 2).take 8),
   bytesToNatBE ((data.drop 10).take 4))

/-- StreamingServer._unpack_header: fewer than 14 bytes yields the
all-None tuple (modelled as none); otherwise the parsed fields together
with the payload slice data[14 : 14 + length].  Python slicing silently
truncates when the buffer holds fewer than length payload bytes. -/
def unpackHeader (data : List Nat) : Option (Nat × Nat × Nat × List Nat) :=
  if data.length < 14 then none
  else
    let f := headerFields data
    some (f.1, f.2.1, f.2.2.1, (data.drop 14).take f.2.2.2)

/-- What StreamingServer._process_message does with a binary message. -/
inductive ServerAction where
  | dropInvalid
  | audioHandled
  | videoHandled
  | ignored
deriving DecidableEq, Repr

/-- StreamingServer._process_message on a binary message: an invalid
header is logged and dropped (stats untouched, session continues);
otherwise bytes_received grows by the message size and the frame is
dispatched on its type tag (0x01 audio, 0x02 video, anything else
ignored). -/
def processMessage (bytesReceived : Nat) (data : List Nat) : Nat × ServerAction :=
  match unpackHeader data with
  | none => (bytesReceived, .dropInvalid)
  | some f =>
    let br := bytesReceived + data.length
    if f.1 = 1 then (br, .audioHandled)
    else if f.1 = 2 then (br, .videoHandled)
    else (br, .ignored)

/-! ## Sound localizer

SoundLocalizer.calculate_direction of audio_streamer.py, over exact
rationals.  The float literal 1e-10 is modelled as 1/10^10 and the
float32 buffers as rational lists; numpy argmax returns the first index
attaining the maximum. -/

/-- The 1e-10 guard added to denominators. -/
def eps10 : ℚ := 1 / 10 ^ 10

/-- np.max(np.abs(xs)) for the normalization step (0 on an empty buffer,
where numpy would raise instead). -/
def maxAbs (xs : List ℚ) : ℚ :=
  xs.foldl (fun a x => qmax a (qabs x)) 0

/-- Buffer normalization: x / (max abs + 1e-10). -/
def normalizeBuf (xs : List ℚ) : List ℚ :=
  xs.map (fun x => x / (maxAbs xs + eps10))

/-- Signal value at a possibly out-of-range index (0 outside). -/
def atZ (xs : List ℚ) (i : ℤ) : ℚ :=
  if 0 ≤ i then xs.getD i.toNat 0 else 0

/-- np.correlate(a, v, mode="full"): output index i corresponds to lag
k = i - (len v - 1), and entry i is the sum of a[j] * v[j - k]. -/
def correlateFull (a v : List ℚ) : List ℚ :=
  (List.range (a.length + v.length - 1)).map (fun i =>
    (List.range a.length).foldl
      (fun acc j => acc + a.getD j 0 * atZ v ((j : ℤ) - (i : ℤ) + (v.length : ℤ) - 1)) 0)

/-- Helper for argmax: scan the rest of the list keeping the first index
of the strictly largest value seen. -/
def argmaxAux : List ℚ → Nat → Nat → ℚ → Nat
  | [], _, besti, _ => besti
  | x :: rest, i, besti, bestv =>
    if bestv < x then argmaxAux rest (i + 1) i x
    else argmaxAux rest (i + 1) besti bestv

/-- np.argmax: first index of the maximum (0 on the empty list, where
numpy would raise instead). -/
def argmaxIdx : List ℚ → Nat
  | [] => 0
  | x :: rest => argmaxAux rest 1 0 x

/-- np.mean(np.abs(xs)) (division by a zero length gives 0 in ℚ). -/
def meanAbs (xs : List ℚ) : ℚ :=
  (xs.map qabs).sum / (xs.length : ℚ)

/-- Cross-correlation of the two normalized buffers. -/
def corrOf (l r : List ℚ) : List ℚ :=
  correlateFull (normalizeBuf l) (normalizeBuf r)

/-- correlation[peak_idx], the value at the argmax. -/
def peakOf (l r : List ℚ) : ℚ :=
  (corrOf l r).getD (argmaxIdx (corrOf l r)) 0

/-- baseline = np.mean(np.abs(correlation)). -/
def baselineOf (l r : List ℚ) : ℚ :=
  meanAbs (corrOf l r)

/-- delay_samples = peak_idx - center, center = len(correlation) // 2. -/
def delaySamplesOf (l r : List ℚ) : ℤ :=
  (argmaxIdx (corrOf l r) : ℤ) - ((corrOf l r).length / 2 : Nat)

/-- np.clip(x, lo, hi) = min(max(x, lo), hi). -/
def clipQ (x lo hi : ℚ) : ℚ := qmin (qmax x lo) hi

/-- Microphone separation in cm (SoundLocalizer default, 30 cm). -/
def micDistance : ℚ := 30

/-- Speed of sound in cm/s used by SoundLocalizer. -/
def speedOfSound : ℚ := 34300

/-- The computable part of SoundLocalizer.calculate_direction: the
clipped sine of the angle (the operand handed to np.arcsin) and the
confidence value. -/
structure DirectionResult where
  sinAngle : ℚ
  confidence : ℚ
deriving DecidableEq, Repr

/-- SoundLocalizer.calculate_direction: normalize both buffers, take the
full cross-correlation, locate the first peak, convert the lag to a time
delay and then to the clipped sine of the arrival angle; the confidence
is min(1, peak / (baseline * 10 + 1e-10)). -/
def calculate_direction (l r : List ℚ) (sampleRate : ℚ) : DirectionResult :=
  let delaySeconds : ℚ := (delaySamplesOf l r : ℚ) / sampleRate
  let sinA := clipQ (delaySeconds * speedOfSound / micDistance) (-1) 1
  ⟨sinA, qmin 1 (peakOf l r / (baselineOf l r * 10 + eps10))⟩

/-- The returned angle in degrees: np.degrees(np.arcsin(sin_angle)). -/
noncomputable def angleDeg (l r : List ℚ) (sampleRate : ℚ) : ℝ :=
  Real.arcsin (((calculate_direction l r sampleRate).sinAngle : ℚ) : ℝ) * (180 / Real.pi)

/-- A centered test pulse. -/
def pulseMid : List ℚ := [0, 0, 1, 0, 0]

/-- The same pulse delayed by one sample. -/
def pulseLate : List ℚ := [0, 0, 0, 1, 0]

/-! ## Connection management

StreamingService.connect / _connect_websocket / _connect_http of
main.py, with the transport environment (library availability and the
outcome of each successive websockets.connect attempt) made explicit. -/

/-- LED status values of led_controller.LedStatus. -/
inductive LedStatus where
  | off
  | connecting
  | connected
  | streaming
  | error
deriving DecidableEq, Repr

/-- Externally observable actions of a connect call. -/
inductive ConnEvent where
  | wsConnectAttempt
  | helloSent
  | httpSessionCreated
deriving DecidableEq, Repr

/-- Outcome of one websocket connection attempt: the transport connect
fails, or the connect succeeds but sending the hello raises, or both the
connect and the hello send go through. -/
inductive AttemptOutcome where
  | connectFails
  | helloFails
  | ok
deriving DecidableEq, Repr

/-- The retry loop of _connect_websocket: up to maxAttempts tries; each
try contacts the server (websockets.connect) and on transport success
sends the hello message, returning True; any exception falls through to
the next attempt.  Returns the result and the emitted events. -/
def wsLoop : Nat → List AttemptOutcome → Bool × List ConnEvent
  | 0, _ => (false, [])
  | n + 1, outs =>
    match outs.headD .connectFails with
    | .ok => (true, [.wsConnectAttempt, .helloSent])
    | .connectFails =>
      let r := wsLoop n outs.tail
      (r.1, .wsConnectAttempt :: r.2)
    | .helloFails =>
      let r := wsLoop n outs.tail
      (r.1, .wsConnectAttempt :: r.2)

/-- Transport environment for connect: which client libraries imported
successfully and what each websocket attempt would do. -/
structure ConnEnv where
  wsAvailable : Bool
  httpAvailable : Bool
  wsOutcomes : List AttemptOutcome

/-- Result of StreamingService.connect: the returned boolean, the LED
status set at the end, and the events performed. -/
structure ConnResult where
  success : Bool
  led : LedStatus
  events : List ConnEvent
deriving DecidableEq, Repr

/-- StreamingService.connect: dispatch on the configured protocol.
websocket: run the retry loop.  http: merely create a local
aiohttp.ClientSession and report success, without contacting the server.
Unknown protocol: error.  The LED is set to connected on success and to
error otherwise. -/
def connectService (protocol : String) (env : ConnEnv) (maxAttempts : Nat) : ConnResult :=
  if protocol = "websocket" then
    if env.wsAvailable then
      let r := wsLoop maxAttempts env.wsOutcomes
      ⟨r.1, if r.1 then .connected else .error, r.2⟩
    else ⟨false, .error, []⟩
  else if protocol = "http" then
    if env.httpAvailable then ⟨true, .connected, [.httpSessionCreated]⟩
    else ⟨false, .error, []⟩
  else ⟨false, .error, []⟩

/-! ## Send path and streaming loop

StreamingService.send and one iteration of _stream_audio, with the
transport outcome made explicit.  send catches every transport exception
internally: it increments the error counter and returns False, and the
calling loops ignore that return value. -/

/-- Which transport the service currently holds. -/
inductive TransportKind where
  | ws
  | http
  | none
deriving DecidableEq, Repr

/-- Outcome of the underlying transport operation for one send. -/
inductive SendOutcome where
  | ok
  | exn
deriving DecidableEq, Repr

/-- Mutable service state touched by the send path. -/
structure SvcState where
  transport : TransportKind
  bytesSent : Nat
  errors : Nat
  audioFrames : Nat
  led : LedStatus
deriving DecidableEq, Repr

/-- Externally observable actions of the send path. -/
inductive SvcEvent where
  | errorLogged
  | warnLogged
  | reconnectStarted
  | ledChanged (s : LedStatus)
deriving DecidableEq, Repr

/-- StreamingService.send: over a websocket, success adds to bytes_sent
and returns True while an exception logs, bumps the error counter and
returns False; over HTTP a 200 adds to bytes_sent, any other status only
logs a warning, and an exception bumps the error counter; with no
transport it returns False.  No branch changes the LED, the transport,
or starts a reconnect. -/
def send (st : SvcState) (outcome : SendOutcome) (httpStatus : Nat) (len : Nat) :
    SvcState × Bool × List SvcEvent :=
  match st.transport with
  | .ws =>
    match outcome with
    | .ok => ({ st with bytesSent := st.bytesSent + len }, true, [])
    | .exn => ({ st with errors := st.errors + 1 }, false, [.errorLogged])
  | .http =>
    match outcome with
    | .ok =>
      if httpStatus = 200 then ({ st with bytesSent := st.bytesSent + len }, true, [])
      else (st, false, [.warnLogged])
    | .exn => ({ st with errors := st.errors + 1 }, false, [.errorLogged])
  | .none => (st, false, [])

/-- One source iteration of StreamingService._stream_audio: if a frame
was dequeued, pack it, send it (discarding the returned boolean) and bump
audio_frames; with no frame, nothing happens. -/
def streamAudioStep (st : SvcState) (frameLen : Option Nat) (outcome : SendOutcome)
    (httpStatus : Nat) : SvcState × List SvcEvent :=
  match frameLen with
  | Option.none => (st, [])
  | Option.some len =>
    let r := send st outcome httpStatus len
    ({ r.1 with audioFrames := r.1.audioFrames + 1 }, r.2.2)

/-! ## Queue lemmas -/

theorem videoEnqueue_length_le {α : Type} {cap : Nat} {q : List α} {f : α}
    (hcap : 0 < cap) (hq : q.length ≤ cap) : (videoEnqueue cap q f).length ≤ cap := by
  unfold videoEnqueue
  split
  · next hfull =>
    cases q with
    | nil => simp
    | cons x rest =>
      simp only [List.length_append, List.length_cons, List.length_nil]
      simp only [List.length_cons] at hq
      omega
  · next hfull =>
    simp only [List.length_append, List.length_cons, List.length_nil]
    omega

theorem videoEnqueueAll_length_le {α : Type} {cap : Nat} (hcap : 0 < cap)
    (fs : List α) : ∀ q : List α, q.length ≤ cap → (videoEnqueueAll cap q fs).length ≤ cap := by
  induction fs with
  | nil => intro q hq; exact hq
  | cons f fs ih =>
    intro q hq
    simp only [videoEnqueueAll, List.foldl_cons] at ih ⊢
    exact ih _ (videoEnqueue_length_le hcap hq)

theorem audioEnqueue_length_le {α : Type} {cap : Nat} {q : List α} {f : α}
    (hcap : 0 < cap) (hq : q.length ≤ cap) : (audioEnqueue cap q f).length ≤ cap := by
  unfold audioEnqueue
  split
  · exact hq
  · next hfull =>
    simp only [List.length_append, List.length_cons, List.length_nil]
    omega

theorem audioEnqueueAll_length_le {α : Type} {cap : Nat} (hcap : 0 < cap)
    (fs : List α) : ∀ q : List α, q.length ≤ cap → (audioEnqueueAll cap q fs).length ≤ cap := by
  induction fs with
  | nil => intro q hq; exact hq
  | cons f fs ih =>
    intro q hq
    simp only [audioEnqueueAll, List.foldl_cons] at ih ⊢
    exact ih _ (audioEnqueue_length_le hcap hq)

/-- C2: a video queue at capacity evicts exactly the oldest frame and then
inserts the new one; the queue size never exceeds the configured capacity
(single step preservation and over any capture sequence from empty); and a
capacity-2 video queue receiving frames a, b, c in order ends as [b, c]. -/
theorem video_queue_evicts_oldest {cap : Nat} (q : List VideoFrame) (f : VideoFrame)
    (hcap : 0 < cap) :
    (q.length = cap → videoEnqueue cap q f = q.tail ++ [f]) ∧
    (q.length ≤ cap → (videoEnqueue cap q f).length ≤ cap) ∧
    (∀ fs : List VideoFrame, (videoEnqueueAll cap [] fs).length ≤ cap) ∧
    (∀ a b c : VideoFrame, videoEnqueueAll 2 [] [a, b, c] = [b, c]) := by
  refine ⟨?_, fun hq => videoEnqueue_length_le hcap hq,
    fun fs => videoEnqueueAll_length_le hcap fs [] (by simp), fun a b c => rfl⟩
  intro hq
  unfold videoEnqueue
  have hfull : 0 < cap ∧ cap ≤ q.length := ⟨hcap, hq.ge⟩
  rw [if_pos hfull]
  cases q with
  | nil => simp at hq; omega
  | cons x rest => rfl

/-- Witness for C2 at a concrete capacity-2 queue holding two frames. -/
theorem video_queue_evicts_oldest_witness :
    (([⟨0, 0⟩, ⟨1, 0⟩] : List VideoFrame).length = 2 →
      videoEnqueue 2 ([⟨0, 0⟩, ⟨1, 0⟩] : List VideoFrame) ⟨2, 0⟩ =
        ([⟨0, 0⟩, ⟨1, 0⟩] : List VideoFrame).tail ++ [⟨2, 0⟩]) ∧
    (([⟨0, 0⟩, ⟨1, 0⟩] : List VideoFrame).length ≤ 2 →
      (videoEnqueue 2 ([⟨0, 0⟩, ⟨1, 0⟩] : List VideoFrame) ⟨2, 0⟩).length ≤ 2) ∧
    (∀ fs : List VideoFrame, (videoEnqueueAll 2 [] fs).length ≤ 2) ∧
    (∀ a b c : VideoFrame, videoEnqueueAll 2 [] [a, b, c] = [b, c]) :=
  video_queue_evicts_oldest ([⟨0, 0⟩, ⟨1, 0⟩] : List VideoFrame) ⟨2, 0⟩ (by decide)

/-- C3: an audio queue never exceeds its configured capacity (single step
preservation and over any capture sequence from empty), and enqueuing onto
a full audio queue leaves the buffered contents and their order unchanged,
discarding the new frame. -/
theorem audio_queue_rejects_newest {cap : Nat} (q : List VideoFrame) (f : VideoFrame)
    (hcap : 0 < cap) :
    (cap ≤ q.length → audioEnqueue cap q f = q) ∧
    (q.length ≤ cap → (audioEnqueue cap q f).length ≤ cap) ∧
    (∀ fs : List VideoFrame, (audioEnqueueAll cap [] fs).length ≤ cap) := by
  refine ⟨?_, fun hq => audioEnqueue_length_le hcap hq,
    fun fs => audioEnqueueAll_length_le hcap fs [] (by simp)⟩
  intro hq
  unfold audioEnqueue
  rw [if_pos ⟨hcap, hq⟩]

/-- Witness for C3 at a concrete capacity-2 queue holding two frames. -/
theorem audio_queue_rejects_newest_witness :
    (2 ≤ ([⟨0, 0⟩, ⟨1, 0⟩] : List VideoFrame).length →
      audioEnqueue 2 ([⟨0, 0⟩, ⟨1, 0⟩] : List VideoFrame) ⟨2, 0⟩ =
        ([⟨0, 0⟩, ⟨1, 0⟩] : List VideoFrame)) ∧
    (([⟨0, 0⟩, ⟨1, 0⟩] : List VideoFrame).length ≤ 2 →
      (audioEnqueue 2 ([⟨0, 0⟩, ⟨1, 0⟩] : List VideoFrame) ⟨2, 0⟩).length ≤ 2) ∧
    (∀ fs : List VideoFrame, (audioEnqueueAll 2 [] fs).length ≤ 2) :=
  audio_queue_rejects_newest ([⟨0, 0⟩, ⟨1, 0⟩] : List VideoFrame) ⟨2, 0⟩ (by decide)

/-! ## Stereo synchronizer lemmas -/

theorem qabs_eq_abs (x : ℚ) : qabs x = |x| := by
  unfold qabs
  split
  · next h => exact (abs_of_neg h).symm
  · next h => exact (abs_of_nonneg (not_lt.mp h)).symm

theorem qmin_eq_min (a b : ℚ) : qmin a b = min a b := by
  unfold qmin
  split
  · next h => exact (min_eq_left h).symm
  · next h => exact (min_eq_right (not_le.mp h).le).symm

theorem qmax_eq_max (a b : ℚ) : qmax a b = max a b := by
  unfold qmax
  split
  · next h => exact (max_eq_right h).symm
  · next h => exact (max_eq_left (not_le.mp h).le).symm

/-- C1: when the synchronizer has a pending frame on each side, a stereo
pair is produced iff the absolute timestamp gap is strictly below the
0.05 s window; a gap of exactly 0.05 produces nothing; and whenever the
gap is 0.05 or more, both candidate frames are removed from their queues
and are not re-buffered anywhere, with the stereo queue untouched. -/
theorem stereo_pair_window (s : SyncState) (l r : VideoFrame) (ls rs : List VideoFrame)
    (hl : s.leftQ = l :: ls) (hr : s.rightQ = r :: rs) :
    ((syncStep s).2 = some (mkStereoPair l r) ↔ |l.timestamp - r.timestamp| < syncWindow) ∧
    (|l.timestamp - r.timestamp| = syncWindow → (syncStep s).2 = none) ∧
    (syncWindow ≤ |l.timestamp - r.timestamp| →
      (syncStep s).2 = none ∧ (syncStep s).1.leftQ = ls ∧ (syncStep s).1.rightQ = rs ∧
      (syncStep s).1.stereoQ = s.stereoQ) := by
  obtain ⟨lq, rq, sq⟩ := s
  simp only at hl hr
  subst hl hr
  by_cases h : |l.timestamp - r.timestamp| < syncWindow
  · have hq : qabs (l.timestamp - r.timestamp) < syncWindow := by rwa [qabs_eq_abs]
    have hstep : syncStep ⟨l :: ls, r :: rs, sq⟩ =
        (⟨ls, rs, if sq.length < stereoCap then sq ++ [mkStereoPair l r] else sq⟩,
          some (mkStereoPair l r)) := by
      simp [syncStep, popFrame, if_pos hq]
    rw [hstep]
    refine ⟨⟨fun _ => h, fun _ => rfl⟩,
      fun heq => absurd h (by rw [heq]; exact lt_irrefl _),
      fun hge => absurd h (not_lt.mpr hge)⟩
  · have hq : ¬ qabs (l.timestamp - r.timestamp) < syncWindow := by rwa [qabs_eq_abs]
    have hstep : syncStep ⟨l :: ls, r :: rs, sq⟩ = (⟨ls, rs, sq⟩, none) := by
      simp [syncStep, popFrame, if_neg hq]
    rw [hstep]
    exact ⟨⟨fun hc => absurd hc (by simp), fun hc => absurd hc h⟩,
      fun _ => rfl, fun _ => ⟨rfl, rfl, rfl, rfl⟩⟩

/-- Witness for C1: frames 0.010 s apart pair up; the produced pair and
the above-window discard case at 0.200 s. -/
theorem stereo_pair_window_witness :
    ((syncStep ⟨[⟨0, 0⟩], [⟨1, 1/100⟩], []⟩).2 = some (mkStereoPair ⟨0, 0⟩ ⟨1, 1/100⟩) ↔
      |(0 : ℚ) - 1/100| < syncWindow) ∧
    (|(0 : ℚ) - 1/100| = syncWindow → (syncStep ⟨[⟨0, 0⟩], [⟨1, 1/100⟩], []⟩).2 = none) ∧
    (syncWindow ≤ |(0 : ℚ) - 1/100| →
      (syncStep ⟨[⟨0, 0⟩], [⟨1, 1/100⟩], []⟩).2 = none ∧
      (syncStep ⟨[⟨0, 0⟩], [⟨1, 1/100⟩], []⟩).1.leftQ = [] ∧
      (syncStep ⟨[⟨0, 0⟩], [⟨1, 1/100⟩], []⟩).1.rightQ = [] ∧
      (syncStep ⟨[⟨0, 0⟩], [⟨1, 1/100⟩], []⟩).1.stereoQ = []) :=
  stereo_pair_window ⟨[⟨0, 0⟩], [⟨1, 1/100⟩], []⟩ ⟨0, 0⟩ ⟨1, 1/100⟩ [] [] rfl rfl

theorem mem_videoEnqueue {α : Type} {cap : Nat} {q : List α} {f x : α}
    (h : x ∈ videoEnqueue cap q f) : x ∈ q ∨ x = f := by
  unfold videoEnqueue at h
  split at h
  · cases q with
    | nil => simp at h
    | cons a rest =>
      rcases List.mem_append.mp h with h1 | h2
      · exact Or.inl (List.mem_cons_of_mem a h1)
      · exact Or.inr (by simpa using h2)
  · rcases List.mem_append.mp h with h1 | h2
    · exact Or.inl h1
    · exact Or.inr (by simpa using h2)

theorem mem_videoEnqueueAll {α : Type} {cap : Nat} (fs : List α) :
    ∀ {q : List α} {x : α}, x ∈ videoEnqueueAll cap q fs → x ∈ q ∨ x ∈ fs := by
  induction fs with
  | nil => intro q x h; exact Or.inl h
  | cons f fs ih =>
    intro q x h
    simp only [videoEnqueueAll, List.foldl_cons] at h
    rcases ih h with h1 | h2
    · rcases mem_videoEnqueue h1 with h3 | h3
      · exact Or.inl h3
      · exact Or.inr (by simp [h3])
    · exact Or.inr (List.mem_cons_of_mem f h2)

/-- Frames in the queues after a sync step were in the queues before it,
and any produced pair is made of the two heads. -/
theorem syncStep_src (s : SyncState) :
    (∀ x ∈ (syncStep s).1.leftQ, x ∈ s.leftQ) ∧
    (∀ x ∈ (syncStep s).1.rightQ, x ∈ s.rightQ) ∧
    (∀ p, (syncStep s).2 = some p → p.left ∈ s.leftQ ∧ p.right ∈ s.rightQ) := by
  obtain ⟨lq, rq, sq⟩ := s
  cases lq with
  | nil =>
    cases rq with
    | nil => simp [syncStep, popFrame]
    | cons r rs =>
      simp only [syncStep, popFrame]
      exact ⟨fun x h => by simp at h, fun x h => List.mem_cons_of_mem r h, fun p h => by simp at h⟩
  | cons l ls =>
    cases rq with
    | nil =>
      simp only [syncStep, popFrame]
      exact ⟨fun x h => List.mem_cons_of_mem l h, fun x h => by simp at h, fun p h => by simp at h⟩
    | cons r rs =>
      simp only [syncStep, popFrame]
      split
      · refine ⟨fun x h => List.mem_cons_of_mem l h, fun x h => List.mem_cons_of_mem r h, ?_⟩
        intro p h
        simp only [Option.some.injEq] at h
        subst h
        exact ⟨List.mem_cons_self l ls, List.mem_cons_self r rs⟩
      · exact ⟨fun x h => List.mem_cons_of_mem l h, fun x h => List.mem_cons_of_mem r h,
          fun p h => by simp at h⟩

/-- Every pair produced during a run is assembled from frames that were
already queued at the start of the run or arrived during it. -/
theorem syncRun_src (arr : List (List VideoFrame × List VideoFrame)) :
    ∀ (s : SyncState) (p : StereoPair), p ∈ syncRun s arr →
      (p.left ∈ framesOf s ∨ p.left ∈ arrFrames arr) ∧
      (p.right ∈ framesOf s ∨ p.right ∈ arrFrames arr) := by
  induction arr with
  | nil => intro s p hp; simp [syncRun] at hp
  | cons a rest ih =>
    intro s p hp
    simp only [syncRun] at hp
    rcases List.mem_append.mp hp with hout | hrest
    · -- the pair produced at this iteration
      rcases hstep : (syncStep ⟨videoEnqueueAll 10 s.leftQ a.1,
          videoEnqueueAll 10 s.rightQ a.2, s.stereoQ⟩).2 with _ | q
      · rw [hstep] at hout; simp at hout
      · rw [hstep] at hout
        simp only [List.mem_singleton] at hout
        subst hout
        have hsrc := (syncStep_src ⟨videoEnqueueAll 10 s.leftQ a.1,
          videoEnqueueAll 10 s.rightQ a.2, s.stereoQ⟩).2.2 p hstep
        constructor
        · rcases mem_videoEnqueueAll a.1 hsrc.1 with h | h
          · exact Or.inl (List.mem_append.mpr (Or.inl h))
          · exact Or.inr (by simp [arrFrames, h])
        · rcases mem_videoEnqueueAll a.2 hsrc.2 with h | h
          · exact Or.inl (List.mem_append.mpr (Or.inr h))
          · exact Or.inr (by simp [arrFrames, h])
    · -- a pair produced later in the run
      have hih := ih _ p hrest
      have hsrc := syncStep_src ⟨videoEnqueueAll 10 s.leftQ a.1,
        videoEnqueueAll 10 s.rightQ a.2, s.stereoQ⟩
      constructor
      · rcases hih.1 with h | h
        · rcases List.mem_append.mp h with h1 | h1
          · rcases mem_videoEnqueueAll a.1 (hsrc.1 _ h1) with h2 | h2
            · exact Or.inl (List.mem_append.mpr (Or.inl h2))
            · exact Or.inr (by simp [arrFrames, h2])
          · rcases mem_videoEnqueueAll a.2 (hsrc.2.1 _ h1) with h2 | h2
            · exact Or.inl (List.mem_append.mpr (Or.inr h2))
            · exact Or.inr (by simp [arrFrames, h2])
        · exact Or.inr (by simp [arrFrames, h])
      · rcases hih.2 with h | h
        · rcases List.mem_append.mp h with h1 | h1
          · rcases mem_videoEnqueueAll a.1 (hsrc.1 _ h1) with h2 | h2
            · exact Or.inl (List.mem_append.mpr (Or.inl h2))
            · exact Or.inr (by simp [arrFrames, h2])
          · rcases mem_videoEnqueueAll a.2 (hsrc.2.1 _ h1) with h2 | h2
            · exact Or.inl (List.mem_append.mpr (Or.inr h2))
            · exact Or.inr (by simp [arrFrames, h2])
        · exact Or.inr (by simp [arrFrames, h])

/-- C10: when exactly one side yields a frame in a sync iteration, that
frame is dequeued and permanently lost: the iteration emits nothing, the
frame is in neither queue afterwards, the stereo queue is untouched, and
no pair produced in any later iteration of the run contains it (provided
the capture loops do not deliver that same frame again). -/
theorem sync_one_sided_frame_lost (f : VideoFrame) (ls rs : List VideoFrame)
    (arr : List (List VideoFrame × List VideoFrame))
    (hls : f ∉ ls) (hrs : f ∉ rs) (harr : f ∉ arrFrames arr) :
    (∀ s : SyncState, s.leftQ = f :: ls → s.rightQ = [] →
      (syncStep s).2 = none ∧
      (syncStep s).1.leftQ = ls ∧ (syncStep s).1.rightQ = [] ∧
      (syncStep s).1.stereoQ = s.stereoQ ∧
      f ∉ framesOf (syncStep s).1 ∧
      ∀ p ∈ syncRun (syncStep s).1 arr, p.left ≠ f ∧ p.right ≠ f) ∧
    (∀ s : SyncState, s.leftQ = [] → s.rightQ = f :: rs →
      (syncStep s).2 = none ∧
      (syncStep s).1.leftQ = [] ∧ (syncStep s).1.rightQ = rs ∧
      (syncStep s).1.stereoQ = s.stereoQ ∧
      f ∉ framesOf (syncStep s).1 ∧
      ∀ p ∈ syncRun (syncStep s).1 arr, p.left ≠ f ∧ p.right ≠ f) := by
  constructor
  · intro s hl hr
    obtain ⟨lq, rq, sq⟩ := s
    simp only at hl hr
    subst hl hr
    have hstep : syncStep ⟨f :: ls, [], sq⟩ = (⟨ls, [], sq⟩, none) := by
      simp [syncStep, popFrame]
    rw [hstep]
    have hnotin : f ∉ framesOf (⟨ls, [], sq⟩ : SyncState) := by
      simp only [framesOf, List.append_nil]
      exact hls
    refine ⟨rfl, rfl, rfl, rfl, hnotin, ?_⟩
    intro p hp
    have hsrc := syncRun_src arr _ p hp
    constructor
    · intro hpl
      rcases hsrc.1 with h | h
      · exact hnotin (hpl ▸ h)
      · exact harr (hpl ▸ h)
    · intro hpr
      rcases hsrc.2 with h | h
      · exact hnotin (hpr ▸ h)
      · exact harr (hpr ▸ h)
  · intro s hl hr
    obtain ⟨lq, rq, sq⟩ := s
    simp only at hl hr
    subst hl hr
    have hstep : syncStep ⟨[], f :: rs, sq⟩ = (⟨[], rs, sq⟩, none) := by
      simp [syncStep, popFrame]
    rw [hstep]
    have hnotin : f ∉ framesOf (⟨[], rs, sq⟩ : SyncState) := by
      simp only [framesOf, List.nil_append]
      exact hrs
    refine ⟨rfl, rfl, rfl, rfl, hnotin, ?_⟩
    intro p hp
    have hsrc := syncRun_src arr _ p hp
    constructor
    · intro hpl
      rcases hsrc.1 with h | h
      · exact hnotin (hpl ▸ h)
      · exact harr (hpl ▸ h)
    · intro hpr
      rcases hsrc.2 with h | h
      · exact hnotin (hpr ▸ h)
      · exact harr (hpr ▸ h)

/-- Witness for C10: a lone left frame against an empty right queue, with
a matching partner arriving only in the following iteration. -/
theorem sync_one_sided_frame_lost_witness :
    (∀ s : SyncState, s.leftQ = [⟨5, 0⟩] → s.rightQ = [] →
      (syncStep s).2 = none ∧
      (syncStep s).1.leftQ = [] ∧ (syncStep s).1.rightQ = [] ∧
      (syncStep s).1.stereoQ = s.stereoQ ∧
      (⟨5, 0⟩ : VideoFrame) ∉ framesOf (syncStep s).1 ∧
      ∀ p ∈ syncRun (syncStep s).1 [([], [⟨6, 1/100⟩])],
        p.left ≠ ⟨5, 0⟩ ∧ p.right ≠ ⟨5, 0⟩) ∧
    (∀ s : SyncState, s.leftQ = [] → s.rightQ = [⟨5, 0⟩] →
      (syncStep s).2 = none ∧
      (syncStep s).1.leftQ = [] ∧ (syncStep s).1.rightQ = [] ∧
      (syncStep s).1.stereoQ = s.stereoQ ∧
      (⟨5, 0⟩ : VideoFrame) ∉ framesOf (syncStep s).1 ∧
      ∀ p ∈ syncRun (syncStep s).1 [([], [⟨6, 1/100⟩])],
        p.left ≠ ⟨5, 0⟩ ∧ p.right ≠ ⟨5, 0⟩) :=
  sync_one_sided_frame_lost ⟨5, 0⟩ [] [] [([], [⟨6, 1/100⟩])]
    (by simp) (by simp) (by simp [arrFrames])

/-! ## Wire format lemmas -/

theorem bytesToNatBE_acc (bs : List Nat) :
    ∀ a : Nat, bs.foldl (fun acc b => acc * 256 + b) a =
      a * 256 ^ bs.length + bytesToNatBE bs := by
  induction bs with
  | nil => intro a; simp [bytesToNatBE]
  | cons b bs ih =>
    intro a
    simp only [List.foldl_cons, bytesToNatBE, List.length_cons]
    rw [ih (a * 256 + b), ih (0 * 256 + b)]
    ring

theorem bytesToNatBE_append (a b : List Nat) :
    bytesToNatBE (a ++ b) = bytesToNatBE a * 256 ^ b.length + bytesToNatBE b := by
  unfold bytesToNatBE
  rw [List.foldl_append]
  exact bytesToNatBE_acc b _

theorem length_natToBytesBE (k : Nat) : ∀ n : Nat, (natToBytesBE k n).length = k := by
  induction k with
  | zero => intro n; rfl
  | succ k ih =>
    intro n
    simp only [natToBytesBE, List.length_append, ih, List.length_cons, List.length_nil]

theorem bytesToNatBE_natToBytesBE (k : Nat) :
    ∀ n : Nat, n < 256 ^ k → bytesToNatBE (natToBytesBE k n) = n := by
  induction k with
  | zero =>
    intro n hn
    interval_cases n
    rfl
  | succ k ih =>
    intro n hn
    have hdiv : n / 256 < 256 ^ k := by
      rw [Nat.div_lt_iff_lt_mul (by norm_num)]
      calc n < 256 ^ (k + 1) := hn
        _ = 256 ^ k * 256 := by ring
    simp only [natToBytesBE, bytesToNatBE_append, ih _ hdiv]
    have hsingle : bytesToNatBE [n % 256] = n % 256 := by
      simp [bytesToNatBE]
    simp only [List.length_cons, List.length_nil, hsingle, pow_one]
    omega

theorem natToBytesBE_byte_lt (k : Nat) :
    ∀ n : Nat, ∀ b ∈ natToBytesBE k n, b < 256 := by
  induction k with
  | zero => intro n b hb; simp [natToBytesBE] at hb
  | succ k ih =>
    intro n b hb
    simp only [natToBytesBE] at hb
    rcases List.mem_append.mp hb with h | h
    · exact ih _ b h
    · simp only [List.mem_singleton] at h
      subst h
      exact Nat.mod_lt _ (by norm_num)

/-- The shape of a packed message: two literal header bytes followed by
the timestamp block, the length block and the payload. -/
theorem packHeader_append (t s ts L : Nat) (payload : List Nat) :
    packHeader t s ts L ++ payload =
      t % 256 :: s % 256 :: (natToBytesBE 8 ts ++ (natToBytesBE 4 L ++ payload)) := by
  simp [packHeader, natToBytesBE]

theorem headerFields_pack (t s ts L : Nat) (payload : List Nat)
    (ht : t < 256) (hs : s < 256) (hts : ts < 2 ^ 64) (hL : L < 2 ^ 32) :
    headerFields (packHeader t s ts L ++ payload) = (t, s, ts, L) := by
  rw [packHeader_append]
  unfold headerFields
  have h8 : ts < 256 ^ 8 := by norm_num at hts ⊢; omega
  have h4 : L < 256 ^ 4 := by norm_num at hL ⊢; omega
  have e1 : (t % 256 :: s % 256 ::
      (natToBytesBE 8 ts ++ (natToBytesBE 4 L ++ payload))).take 1 = [t % 256] := rfl
  have e2 : ((t % 256 :: s % 256 ::
      (natToBytesBE 8 ts ++ (natToBytesBE 4 L ++ payload))).drop 1).take 1 = [s % 256] := rfl
  have e3 : (t % 256 :: s % 256 ::
      (natToBytesBE 8 ts ++ (natToBytesBE 4 L ++ payload))).drop 2 =
      natToBytesBE 8 ts ++ (natToBytesBE 4 L ++ payload) := rfl
  have e4 : (natToBytesBE 8 ts ++ (natToBytesBE 4 L ++ payload)).take 8 = natToBytesBE 8 ts :=
    List.take_left' (length_natToBytesBE 8 ts)
  have e5 : (t % 256 :: s % 256 ::
      (natToBytesBE 8 ts ++ (natToBytesBE 4 L ++ payload))).drop 10 =
      natToBytesBE 4 L ++ payload := by
    show (natToBytesBE 8 ts ++ (natToBytesBE 4 L ++ payload)).drop 8 =
      natToBytesBE 4 L ++ payload
    exact List.drop_left' (length_natToBytesBE 8 ts)
  have e6 : (natToBytesBE 4 L ++ payload).take 4 = natToBytesBE 4 L :=
    List.take_left' (length_natToBytesBE 4 L)
  rw [e1, e2, e3, e4, e5, e6]
  have hb1 : bytesToNatBE [t % 256] = t := by
    simp [bytesToNatBE, Nat.mod_eq_of_lt ht]
  have hb2 : bytesToNatBE [s % 256] = s := by
    simp [bytesToNatBE, Nat.mod_eq_of_lt hs]
  rw [hb1, hb2, bytesToNatBE_natToBytesBE 8 ts h8, bytesToNatBE_natToBytesBE 4 L h4]

theorem packHeader_length (t s ts L : Nat) : (packHeader t s ts L).length = 14 := by
  simp [packHeader, length_natToBytesBE]

theorem unpackHeader_pack (t s ts L : Nat) (payload : List Nat)
    (ht : t < 256) (hs : s < 256) (hts : ts < 2 ^ 64) (hL : L < 2 ^ 32)
    (hlen : payload.length ≤ L) :
    unpackHeader (packHeader t s ts L ++ payload) = some (t, s, ts, payload) := by
  unfold unpackHeader
  have hlen14 : (packHeader t s ts L ++ payload).length = 14 + payload.length := by
    simp [packHeader_length]
  rw [if_neg (by omega)]
  rw [headerFields_pack t s ts L payload ht hs hts hL]
  have hdrop : (packHeader t s ts L ++ payload).drop 14 = payload :=
    List.drop_left' (packHeader_length t s ts L)
  rw [hdrop]
  simp [List.take_of_length_le hlen]

/-- C4: for every header tuple in its valid range (uint8 type, uint8
sourceId, float64 timestamp modelled by its 64-bit pattern, uint32
length), decoding the 14-byte header produced by encoding the tuple
yields the identical tuple back, and unpacking a full packed message
returns the original fields and payload. -/
theorem header_roundtrip (t s ts L : Nat) (payload : List Nat)
    (ht : t < 256) (hs : s < 256) (hts : ts < 2 ^ 64) (hL : L < 2 ^ 32) :
    headerFields (packHeader t s ts L) = (t, s, ts, L) ∧
    (payload.length = L →
      unpackHeader (packHeader t s ts L ++ payload) = some (t, s, ts, payload)) ∧
    (payload.length < 2 ^ 32 →
      unpackHeader (packMessage t s ts payload) = some (t, s, ts, payload)) := by
  refine ⟨?_, fun hlen => unpackHeader_pack t s ts L payload ht hs hts hL hlen.le, fun hp => ?_⟩
  · have := headerFields_pack t s ts L [] ht hs hts hL
    simpa using this
  · exact unpackHeader_pack t s ts payload.length payload ht hs hts hp le_rfl

/-- Witness for C4 at a concrete header tuple and payload. -/
theorem header_roundtrip_witness :
    headerFields (packHeader 2 1 4638387860618067575 3) = (2, 1, 4638387860618067575, 3) ∧
    (([9, 8, 7] : List Nat).length = 3 →
      unpackHeader (packHeader 2 1 4638387860618067575 3 ++ [9, 8, 7]) =
        some (2, 1, 4638387860618067575, [9, 8, 7])) ∧
    (([9, 8, 7] : List Nat).length < 2 ^ 32 →
      unpackHeader (packMessage 2 1 4638387860618067575 [9, 8, 7]) =
        some (2, 1, 4638387860618067575, [9, 8, 7])) :=
  header_roundtrip 2 1 4638387860618067575 3 [9, 8, 7]
    (by decide) (by decide) (by decide) (by decide)

/-- C6 counterexample: a 16-byte message whose header declares a 5-byte
payload but which carries only 2 payload bytes is not rejected: the
decoder returns the silently truncated 2-byte payload and the message is
processed as a valid video frame instead of being dropped. -/
theorem short_payload_not_rejected :
    unpackHeader (packHeader 2 0 0 5 ++ [7, 7]) = some (2, 0, 0, [7, 7]) ∧
    (unpackHeader (packHeader 2 0 0 5 ++ [7, 7]) ≠ none) ∧
    processMessage 0 (packHeader 2 0 0 5 ++ [7, 7]) = (16, ServerAction.videoHandled) := by
  refine ⟨by decide, by decide, by decide⟩

/-- C6 amended: the decoder reads exactly 14 header bytes, and a message
shorter than 14 bytes is rejected: unpacking yields none, and the message
is dropped with the byte counter untouched (the session continues).  The
declared length, however, is never validated against the remaining buffer
size: whenever the payload carries at most the declared number of bytes,
the decoder returns all available bytes as the payload, silently
truncated, and the message is processed as valid. -/
theorem truncated_message_handling (br : Nat) (data : List Nat)
    (t s ts L : Nat) (payload : List Nat)
    (ht : t < 256) (hs : s < 256) (hts : ts < 2 ^ 64) (hL : L < 2 ^ 32) :
    (data.length < 14 →
      unpackHeader data = none ∧ processMessage br data = (br, ServerAction.dropInvalid)) ∧
    (payload.length ≤ L →
      unpackHeader (packHeader t s ts L ++ payload) = some (t, s, ts, payload)) := by
  constructor
  · intro hshort
    have hnone : unpackHeader data = none := by
      unfold unpackHeader
      rw [if_pos hshort]
    refine ⟨hnone, ?_⟩
    unfold processMessage
    rw [hnone]
  · intro hlen
    exact unpackHeader_pack t s ts L payload ht hs hts hL hlen

/-- Witness for C6 amended: a 2-byte fragment is dropped, and a
declared-5 message carrying 2 bytes is silently truncated. -/
theorem truncated_message_handling_witness :
    (([3, 1] : List Nat).length < 14 →
      unpackHeader [3, 1] = none ∧
      processMessage 0 [3, 1] = (0, ServerAction.dropInvalid)) ∧
    (([7, 7] : List Nat).length ≤ 5 →
      unpackHeader (packHeader 2 0 0 5 ++ [7, 7]) = some (2, 0, 0, [7, 7])) :=
  truncated_message_handling 0 [3, 1] 2 0 0 5 [7, 7]
    (by decide) (by decide) (by decide) (by decide)

/-! ## Connection and send-path lemmas -/

/-- A successful websocket retry loop contacted the server and sent the
hello message. -/
theorem wsLoop_success_handshake (n : Nat) :
    ∀ outs : List AttemptOutcome, (wsLoop n outs).1 = true →
      ConnEvent.wsConnectAttempt ∈ (wsLoop n outs).2 ∧
      ConnEvent.helloSent ∈ (wsLoop n outs).2 := by
  induction n with
  | zero => intro outs h; simp [wsLoop] at h
  | succ n ih =>
    intro outs h
    unfold wsLoop at h ⊢
    rcases houts : outs.headD .connectFails with _ | _ | _ <;> rw [houts] at h
    · have := ih outs.tail h
      exact ⟨List.mem_cons_of_mem _ this.1, List.mem_cons_of_mem _ this.2⟩
    · have := ih outs.tail h
      exact ⟨List.mem_cons_of_mem _ this.1, List.mem_cons_of_mem _ this.2⟩
    · simp

/-- C7 counterexample: with the HTTP protocol configured, connect reports
success and sets the LED to connected while never contacting the server
and never sending the hello message — only a local HTTP session is
created. -/
theorem http_connect_without_handshake :
    (connectService "http" ⟨true, true, []⟩ 10).success = true ∧
    (connectService "http" ⟨true, true, []⟩ 10).led = LedStatus.connected ∧
    ConnEvent.wsConnectAttempt ∉ (connectService "http" ⟨true, true, []⟩ 10).events ∧
    ConnEvent.helloSent ∉ (connectService "http" ⟨true, true, []⟩ 10).events := by
  refine ⟨rfl, rfl, by decide, by decide⟩

/-- C7 amended: under the websocket protocol, connect reports success only
after a server contact and a completed hello send, and the LED then shows
connected; the HTTP path, by contrast, reports success after merely
creating a local session, with no server contact and no hello. -/
theorem connect_handshake_per_protocol (env : ConnEnv) (maxAttempts : Nat)
    (hok : (connectService "websocket" env maxAttempts).success = true) :
    (ConnEvent.wsConnectAttempt ∈ (connectService "websocket" env maxAttempts).events ∧
      ConnEvent.helloSent ∈ (connectService "websocket" env maxAttempts).events ∧
      (connectService "websocket" env maxAttempts).led = LedStatus.connected) ∧
    (∀ env2 : ConnEnv, env2.httpAvailable = true →
      (connectService "http" env2 maxAttempts).success = true ∧
      (connectService "http" env2 maxAttempts).events = [ConnEvent.httpSessionCreated]) := by
  constructor
  · by_cases hws : env.wsAvailable
    · have hred : connectService "websocket" env maxAttempts =
          ⟨(wsLoop maxAttempts env.wsOutcomes).1,
            if (wsLoop maxAttempts env.wsOutcomes).1 then .connected else .error,
            (wsLoop maxAttempts env.wsOutcomes).2⟩ := by
        unfold connectService
        rw [if_pos rfl, if_pos hws]
      rw [hred] at hok ⊢
      simp only at hok ⊢
      have := wsLoop_success_handshake maxAttempts env.wsOutcomes hok
      exact ⟨this.1, this.2, by rw [hok]; rfl⟩
    · exfalso
      have hred : connectService "websocket" env maxAttempts = ⟨false, .error, []⟩ := by
        unfold connectService
        rw [if_pos rfl, if_neg hws]
      rw [hred] at hok
      simp at hok
  · intro env2 h2
    have hred : connectService "http" env2 maxAttempts = ⟨true, .connected, [.httpSessionCreated]⟩ := by
      unfold connectService
      rw [if_neg (by decide), if_pos rfl, if_pos h2]
    rw [hred]
    exact ⟨rfl, rfl⟩

/-- Witness for C7 amended: a single websocket attempt that succeeds. -/
theorem connect_handshake_per_protocol_witness :
    (ConnEvent.wsConnectAttempt ∈
        (connectService "websocket" ⟨true, true, [.ok]⟩ 10).events ∧
      ConnEvent.helloSent ∈ (connectService "websocket" ⟨true, true, [.ok]⟩ 10).events ∧
      (connectService "websocket" ⟨true, true, [.ok]⟩ 10).led = LedStatus.connected) ∧
    (∀ env2 : ConnEnv, env2.httpAvailable = true →
      (connectService "http" env2 10).success = true ∧
      (connectService "http" env2 10).events = [ConnEvent.httpSessionCreated]) :=
  connect_handshake_per_protocol ⟨true, true, [.ok]⟩ 10 (by decide)

/-- C5 counterexample: a websocket send failure while streaming bumps the
error counter, but the service neither transitions the LED to error nor
starts any reconnect: the loop just increments its frame counter and
keeps the same dead transport for the next iteration. -/
theorem send_failure_without_reconnect :
    (streamAudioStep ⟨.ws, 0, 0, 0, .streaming⟩ (some 100) .exn 0).1 =
      ⟨.ws, 0, 1, 1, .streaming⟩ ∧
    (streamAudioStep ⟨.ws, 0, 0, 0, .streaming⟩ (some 100) .exn 0).1.led ≠ LedStatus.error ∧
    SvcEvent.reconnectStarted ∉ (streamAudioStep ⟨.ws, 0, 0, 0, .streaming⟩ (some 100) .exn 0).2 ∧
    (streamAudioStep ⟨.ws, 0, 0, 0, .streaming⟩ (some 100) .exn 0).2 = [SvcEvent.errorLogged] := by
  refine ⟨rfl, by decide, by decide, rfl⟩

/-- C5 amended: a transport-level websocket send failure is recorded in
the error-count statistic and send returns False, but no reconnect cycle
is triggered: the LED, the transport and every other part of the
connection state are unchanged, no reconnect or LED event is emitted, and
the streaming loop continues (its frame counter still advances). -/
theorem send_failure_recorded_only (st : SvcState) (httpStatus len : Nat)
    (hws : st.transport = TransportKind.ws) :
    (send st .exn httpStatus len).1.errors = st.errors + 1 ∧
    (send st .exn httpStatus len).2.1 = false ∧
    (send st .exn httpStatus len).1.led = st.led ∧
    (send st .exn httpStatus len).1.transport = st.transport ∧
    (send st .exn httpStatus len).1.bytesSent = st.bytesSent ∧
    SvcEvent.reconnectStarted ∉ (send st .exn httpStatus len).2.2 ∧
    (∀ x : LedStatus, SvcEvent.ledChanged x ∉ (send st .exn httpStatus len).2.2) ∧
    (streamAudioStep st (some len) .exn httpStatus).1.errors = st.errors + 1 ∧
    (streamAudioStep st (some len) .exn httpStatus).1.audioFrames = st.audioFrames + 1 := by
  have hsend : send st .exn httpStatus len =
      ({ st with errors := st.errors + 1 }, false, [.errorLogged]) := by
    unfold send
    rw [hws]
  have hstream : streamAudioStep st (some len) .exn httpStatus =
      ({ st with errors := st.errors + 1, audioFrames := st.audioFrames + 1 },
        [.errorLogged]) := by
    unfold streamAudioStep send
    rw [hws]
  rw [hsend, hstream]
  exact ⟨rfl, rfl, rfl, rfl, rfl, by simp, fun x => by simp, rfl, rfl⟩

/-- Witness for C5 amended at a concrete streaming-state instance. -/
theorem send_failure_recorded_only_witness :
    (send ⟨.ws, 5, 2, 3, .streaming⟩ .exn 0 100).1.errors = 2 + 1 ∧
    (send ⟨.ws, 5, 2, 3, .streaming⟩ .exn 0 100).2.1 = false ∧
    (send ⟨.ws, 5, 2, 3, .streaming⟩ .exn 0 100).1.led = LedStatus.streaming ∧
    (send ⟨.ws, 5, 2, 3, .streaming⟩ .exn 0 100).1.transport = TransportKind.ws ∧
    (send ⟨.ws, 5, 2, 3, .streaming⟩ .exn 0 100).1.bytesSent = 5 ∧
    SvcEvent.reconnectStarted ∉ (send ⟨.ws, 5, 2, 3, .streaming⟩ .exn 0 100).2.2 ∧
    (∀ x : LedStatus, SvcEvent.ledChanged x ∉ (send ⟨.ws, 5, 2, 3, .streaming⟩ .exn 0 100).2.2) ∧
    (streamAudioStep ⟨.ws, 5, 2, 3, .streaming⟩ (some 100) .exn 0).1.errors = 2 + 1 ∧
    (streamAudioStep ⟨.ws, 5, 2, 3, .streaming⟩ (some 100) .exn 0).1.audioFrames = 3 + 1 :=
  send_failure_recorded_only ⟨.ws, 5, 2, 3, .streaming⟩ 0 100 rfl

/-! ## Sound localizer lemmas -/

theorem qabs_nonneg (x : ℚ) : 0 ≤ qabs x := by
  rw [qabs_eq_abs]
  exact abs_nonneg x

theorem meanAbs_nonneg (xs : List ℚ) : 0 ≤ meanAbs xs := by
  unfold meanAbs
  refine div_nonneg ?_ (by positivity)
  refine List.sum_nonneg ?_
  intro x hx
  rcases List.mem_map.mp hx with ⟨y, _, rfl⟩
  exact qabs_nonneg y

/-- C8 counterexample: on the buffers [1] and [-1] the correlation peak
is negative and the returned confidence is strictly below 0 — the formula
min(1, peak / (baseline * 10 + 1e-10)) has no lower clamp. -/
theorem confidence_below_zero :
    (calculate_direction [1] [-1] 16000).confidence < 0 := by
  with_unfolding_all decide

/-- C8 amended: the confidence is min(1, peak / (10 * meanAbs + 1e-10));
it never exceeds 1 and is nonnegative whenever the correlation peak is
nonnegative, but a negative correlation peak makes it negative — there is
no clamp at 0, so the clamped range is (-∞, 1], not [0, 1]. -/
theorem confidence_bounds (l r : List ℚ) (sampleRate : ℚ) :
    (calculate_direction l r sampleRate).confidence =
      qmin 1 (peakOf l r / (baselineOf l r * 10 + eps10)) ∧
    (calculate_direction l r sampleRate).confidence ≤ 1 ∧
    (0 ≤ peakOf l r → 0 ≤ (calculate_direction l r sampleRate).confidence) := by
  refine ⟨rfl, ?_, ?_⟩
  · show qmin 1 (peakOf l r / (baselineOf l r * 10 + eps10)) ≤ 1
    rw [qmin_eq_min]
    exact min_le_left _ _
  · intro hpeak
    show 0 ≤ qmin 1 (peakOf l r / (baselineOf l r * 10 + eps10))
    rw [qmin_eq_min]
    refine le_min (by norm_num) (div_nonneg hpeak ?_)
    have hb : 0 ≤ baselineOf l r := meanAbs_nonneg _
    have he : (0 : ℚ) < eps10 := by norm_num [eps10]
    linarith

/-- Witness for C8 amended on concrete identical one-sample buffers. -/
theorem confidence_bounds_witness :
    (calculate_direction [1] [1] 16000).confidence =
      qmin 1 (peakOf [1] [1] / (baselineOf [1] [1] * 10 + eps10)) ∧
    (calculate_direction [1] [1] 16000).confidence ≤ 1 ∧
    (0 ≤ peakOf [1] [1] → 0 ≤ (calculate_direction [1] [1] 16000).confidence) :=
  confidence_bounds [1] [1] 16000

/-- C9: the reported angle always lies in [-90°, +90°]; equal buffers
(zero delay) give exactly 0°; a right buffer that is the left delayed by
one sample (sound arriving left-first) gives a strictly negative angle;
and the mirrored buffers (right-first) give a strictly positive angle. -/
theorem sound_direction_angle :
    (∀ (l r : List ℚ) (sampleRate : ℚ), l ≠ [] → r ≠ [] →
      -90 ≤ angleDeg l r sampleRate ∧ angleDeg l r sampleRate ≤ 90) ∧
    angleDeg pulseMid pulseMid 16000 = 0 ∧
    angleDeg pulseMid pulseLate 16000 < 0 ∧
    0 < angleDeg pulseLate pulseMid 16000 := by
  have hpos : (0 : ℝ) < 180 / Real.pi := div_pos (by norm_num) Real.pi_pos
  have hkey : Real.pi / 2 * (180 / Real.pi) = 90 := by
    field_simp
    ring
  have hbound : ∀ x : ℝ,
      -90 ≤ Real.arcsin x * (180 / Real.pi) ∧ Real.arcsin x * (180 / Real.pi) ≤ 90 := by
    intro x
    constructor
    · have h := mul_le_mul_of_nonneg_right (Real.neg_pi_div_two_le_arcsin x) hpos.le
      rwa [neg_mul, hkey] at h
    · have h := mul_le_mul_of_nonneg_right (Real.arcsin_le_pi_div_two x) hpos.le
      rwa [hkey] at h
  refine ⟨fun l r sr _ _ => hbound _, ?_, ?_, ?_⟩
  · have hz : (calculate_direction pulseMid pulseMid 16000).sinAngle = 0 := by
      with_unfolding_all decide
    unfold angleDeg
    rw [hz]
    norm_num [Real.arcsin_zero]
  · have hneg : (calculate_direction pulseMid pulseLate 16000).sinAngle < 0 := by
      with_unfolding_all decide
    have hnegR : (((calculate_direction pulseMid pulseLate 16000).sinAngle : ℚ) : ℝ) < 0 := by
      exact_mod_cast hneg
    have harc : Real.arcsin (((calculate_direction pulseMid pulseLate 16000).sinAngle : ℚ) : ℝ) < 0 := by
      rw [← not_le, Real.arcsin_nonneg]
      exact not_le.mpr hnegR
    exact mul_neg_of_neg_of_pos harc hpos
  · have hp : 0 < (calculate_direction pulseLate pulseMid 16000).sinAngle := by
      with_unfolding_all decide
    have hpR : (0 : ℝ) < (((calculate_direction pulseLate pulseMid 16000).sinAngle : ℚ) : ℝ) := by
      exact_mod_cast hp
    have harc : 0 < Real.arcsin (((calculate_direction pulseLate pulseMid 16000).sinAngle : ℚ) : ℝ) :=
      Real.arcsin_pos.mpr hpR
    exact mul_pos harc hpos

/-- Witness for C9 on the concrete delayed-pulse buffers. -/
theorem sound_direction_angle_witness :
    -90 ≤ angleDeg pulseMid pulseLate 16000 ∧ angleDeg pulseMid pulseLate 16000 ≤ 90 :=
  sound_direction_angle.1 pulseMid pulseLate 16000 (by simp [pulseMid]) (by simp [pulseLate])

end Flathead
